import Mathlib

/-!
Verification of the extraction-and-ordering pipeline of Comic-Encoder
(src/actions/decode.rs).

The pipeline is embedded shallowly:

* Filesystem and container side effects are abstracted into boolean
  success flags carried by the input data (one flag per fallible
  operation of the source: opening the container, reading an entry,
  creating a temporary file, copying bytes, renaming, resolving a PDF
  page or its resources, producing the JPEG form of an image, writing
  an image).  Each pipeline function additionally returns the list of
  files it created (the model of its write side effects).
* OS strings that may not be valid UTF-8 are modelled by `OsStr`:
  either a Lean `String` or an opaque invalid marker (only the
  success or failure of `to_str` matters to the control flow).
* Rust `PathBuf` values (the sanitized entry names) are modelled as
  lists of path segments, each segment a `String`.
* Rust machine integers do not overflow in this code (all counters are
  small collection sizes), so `Nat` is used throughout.
* `Vec::sort_by`, a stable sort by a comparator `cmp`, is modelled by
  `List.mergeSort` with the boolean order `fun a b => (cmp a b).isLE`,
  which has the same specification (stable, sorted so that no element
  compares `gt` with its successor).
* A Rust panic (`unwrap` on `None`) is modelled by the dedicated
  result `RunResult.panicked`, distinct from every `Result` error.
-/

namespace ComicEnc

/-! ### Characters and decimal digit runs -/

/-- Comparison of two characters by code point, as Rust compares `char`
(and as byte-wise comparison of UTF-8 encodings orders valid strings). -/
def charCmp (a b : Char) : Ordering := compare a.toNat b.toNat

/-- Numeric value of a run of decimal digit characters, most significant
first.  Leading zeros do not change the value. -/
def digitsVal (cs : List Char) : Nat :=
  cs.foldl (fun n c => 10 * n + (c.toNat - 48)) 0

/-- Modelled from the spec: the character-level natural comparator of
`deter::natural_paths_cmp` (module `lib/deter`, not part of the sources
under verification).  Scan two segments left to right; wherever both
sides stand at a maximal contiguous run of decimal digits, compare the
runs as unsigned integers (ignoring leading zeros); wherever characters
are non-digit, compare by code point; a strict prefix sorts first. -/
def natCmpChars : List Char → List Char → Ordering
  | [], [] => .eq
  | [], _ :: _ => .lt
  | _ :: _, [] => .gt
  | a :: as, b :: bs =>
    if a.isDigit && b.isDigit then
      (compare (digitsVal (a :: as.takeWhile Char.isDigit))
               (digitsVal (b :: bs.takeWhile Char.isDigit))).then
        (natCmpChars (as.dropWhile Char.isDigit) (bs.dropWhile Char.isDigit))
    else
      (charCmp a b).then (natCmpChars as bs)
termination_by x _ => x.length
decreasing_by
  · simp only [List.length_cons]
    have := (List.dropWhile_sublist (l := as) Char.isDigit).length_le
    omega
  · simp

/-- Modelled from the spec: the natural comparator applied to one path
segment. -/
def natSegCmp (a b : String) : Ordering := natCmpChars a.data b.data

/-- Lexicographic comparison of lists by an element comparator: first
differing position decides, a strict prefix sorts first. -/
def lexCmp (c : α → α → Ordering) : List α → List α → Ordering
  | [], [] => .eq
  | [], _ :: _ => .lt
  | _ :: _, [] => .gt
  | a :: as, b :: bs => (c a b).then (lexCmp c as bs)

/-- Modelled from the spec: `deter::natural_paths_cmp`, the natural
order on paths, comparing segment by segment in sequence order. -/
def natural_paths_cmp (x y : List String) : Ordering :=
  lexCmp natSegCmp x y

/-- Comparison of one path segment by code points (the order of Rust
`OsStr` on valid UTF-8 data, used by `PathBuf::cmp`). -/
def segLexCmp (a b : String) : Ordering := lexCmp charCmp a.data b.data

/-- The simple (purely lexicographic) path order of
`a.path_in_zip.cmp(&b.path_in_zip)`: segment by segment, each segment
by code points. -/
def pathLexCmp (x y : List String) : Ordering :=
  lexCmp segLexCmp x y

/-! ### OS strings, extensions, decimal formatting -/

/-- An OS string: either valid UTF-8 (carrying the decoded text) or an
opaque value on which `to_str` fails. -/
inductive OsStr
  | valid (s : String)
  | invalidUtf8
  deriving DecidableEq

/-- `OsStr::to_str`: `some` exactly on valid UTF-8. -/
def OsStr.to_str : OsStr → Option String
  | .valid s => some s
  | .invalidUtf8 => none

/-- The characters after the last `'.'` of a segment, if any dot occurs. -/
def afterLastDot : List Char → Option (List Char)
  | [] => none
  | c :: rest =>
    match afterLastDot rest with
    | some e => some e
    | none => if c = '.' then some rest else none

/-- Rust `Path::extension` restricted to a file name: the portion after
the final `'.'`, or `none` when there is no embedded dot or when the
name begins with a dot and has no other dot. -/
def rustFileExtension (fileName : String) : Option String :=
  match fileName.data with
  | [] => none
  | c :: rest =>
    if c = '.' then (afterLastDot rest).map (fun cs => ⟨cs⟩)
    else (afterLastDot (c :: rest)).map (fun cs => ⟨cs⟩)

/-- Rust `Path::extension` on a segmented path: the extension of the
last segment (the file name). -/
def pathExtension (p : List String) : Option String :=
  p.getLast?.bind rustFileExtension

/-- Rust `format!("{:0w$}", n)` on a nonnegative integer: the decimal
digits of `n`, left-padded with zeros to at least width `w`. -/
def zeroPad (w n : Nat) : String :=
  ⟨List.replicate (w - (Nat.repr n).length) '0'⟩ ++ Nat.repr n

/-- The temporary file name `___tmp_pic_{k}` used while staging page `k`
(counted over pages staged so far). -/
def tmpName (k : Nat) : String := "___tmp_pic_" ++ Nat.repr k

/-! ### Configuration and errors -/

/-- The slice of the `Decode` options record consumed by `decode`. -/
structure Decode where
  extract_images_only : Bool
  accept_extended_image_formats : Bool
  simple_sorting : Bool
  skip_bad_pdf_pages : Bool
  deriving DecidableEq

/-- `DecodingError`, restricted to the variants reachable from the part
of `decode` under verification (after input and output directory
validation).  Payloads of external error types (`io::Error`,
`zip::result::ZipError`, `pdf::error::PdfError`) are dropped; path and
page-number payloads are kept. -/
inductive DecodingError
  | UnsupportedFormat (ext : String)
  | InputFileHasInvalidUTF8FileExtension
  | FailedToOpenZipFile
  | InvalidZipArchive
  | ZipError
  | ZipFileHasInvalidUTF8FileExtension (path : List String)
  | FailedToCreateOutputFile (path : String)
  | FailedToExtractZipFile (pathInZip : List String) (extractTo : String)
  | FailedToRenameTemporaryFile (src : String) (dst : String)
  | FailedToOpenPdfFile
  | FailedToGetPdfPage (page : Nat)
  | FailedToGetPdfPageResources (page : Nat)
  | FailedToExtractPdfImage (image : Nat) (path : String)
  deriving DecidableEq

/-- Outcome of running a fallible Rust function that may also panic:
`unwrap` on `None` is `panicked`, distinct from every returned error. -/
inductive RunResult (α : Type)
  | ok (val : α)
  | err (e : DecodingError)
  | panicked
  deriving DecidableEq

/-- Lift the value of a `Result`-returning branch into `RunResult`. -/
def liftExcept : Except DecodingError α → RunResult α
  | .ok v => .ok v
  | .error e => .err e

/-! ### Archive (ZIP / CBZ) extraction -/

/-- One entry of the ZIP archive, with the success flags of the
fallible operations the source performs on it. -/
structure ZipEntry where
  /-- `zip.by_index(i)` succeeds. -/
  byIndexOk : Bool := true
  /-- `file.is_file()`: directories are `false`. -/
  isFile : Bool := true
  /-- `file.sanitized_name()`, as path segments. -/
  name : List String := []
  /-- The extension of the sanitized name, when present, is valid UTF-8. -/
  extValidUtf8 : Bool := true
  /-- `File::create` of the temporary output file succeeds. -/
  createOk : Bool := true
  /-- `io::copy` of the entry bytes succeeds. -/
  copyOk : Bool := true
  /-- `fs::rename` of the staged temporary file succeeds. -/
  renameOk : Bool := true
  deriving DecidableEq

/-- The ZIP archive input: flags for opening it plus its entries in
container-native (`by_index`) order. -/
structure ZipInput where
  /-- `File::open` succeeds. -/
  openOk : Bool := true
  /-- `ZipArchive::new` accepts the file. -/
  archiveOk : Bool := true
  entries : List ZipEntry := []
  deriving DecidableEq

/-- `ExtractedFile`: a staged page (original entry path, temporary file
path, detected extension), plus the carried rename flag of its entry. -/
structure ExtractedFile where
  path_in_zip : List String
  extracted_path : String
  extension : Option String
  renameOk : Bool := true
  deriving DecidableEq

/-- The entry loop of the ZIP branch (lines 89-142): enumerate entries,
skip directories, apply the images-only filter, detect the extension
(failing on invalid UTF-8), create the temporary file and copy the
entry bytes into it.  `img` is the external `deter::has_image_ext`
predicate, `k` counts pages staged so far (`pages.len()`).  Returns the
staged pages and the list of temporary files created. -/
def stageEntries (dec : Decode) (img : List String → Bool → Bool) :
    List ZipEntry → Nat → Except DecodingError (List ExtractedFile) × List String
  | [], _ => (.ok [], [])
  | e :: rest, k =>
    if !e.byIndexOk then (.error .ZipError, [])
    else if e.isFile then
      if dec.extract_images_only && !img e.name dec.accept_extended_image_formats then
        stageEntries dec img rest k
      else
        match pathExtension e.name, e.extValidUtf8 with
        | some _, false => (.error (.ZipFileHasInvalidUTF8FileExtension e.name), [])
        | ext?, _ =>
          let outpath := tmpName k
          if !e.createOk then (.error (.FailedToCreateOutputFile outpath), [])
          else if !e.copyOk then
            (.error (.FailedToExtractZipFile e.name outpath), [outpath])
          else
            let page : ExtractedFile :=
              { path_in_zip := e.name, extracted_path := outpath,
                extension := ext?, renameOk := e.renameOk }
            match stageEntries dec img rest (k + 1) with
            | (.ok pages, tr) => (.ok (page :: pages), outpath :: tr)
            | (.error er, tr) => (.error er, outpath :: tr)
    else stageEntries dec img rest k

/-- The page sort (lines 146-150): a stable sort of the staged pages by
the simple or the natural path order on the original entry path. -/
def sortPages (dec : Decode) (pages : List ExtractedFile) : List ExtractedFile :=
  if dec.simple_sorting then
    pages.mergeSort (fun a b => (pathLexCmp a.path_in_zip b.path_in_zip).isLE)
  else
    pages.mergeSort (fun a b => (natural_paths_cmp a.path_in_zip b.path_in_zip).isLE)

/-- The final name of the page at 0-based index `i`: `i + 1` zero-padded
to width `w`, then a dot and the recorded extension when one exists. -/
def targetName (w i : Nat) (ext : Option String) : String :=
  match ext with
  | none => zeroPad w (i + 1)
  | some e => zeroPad w (i + 1) ++ "." ++ e

/-- The rename loop (lines 161-183): rename each staged page, in sorted
order, to its final zero-padded name.  Returns the final paths and the
files created (the rename targets). -/
def renamePages (w : Nat) : List ExtractedFile → Nat → Except DecodingError (List String) × List String
  | [], _ => (.ok [], [])
  | p :: rest, i =>
    let target := targetName w i p.extension
    if !p.renameOk then
      (.error (.FailedToRenameTemporaryFile p.extracted_path target), [])
    else
      match renamePages w rest (i + 1) with
      | (.ok rest', tr) => (.ok (target :: rest'), target :: tr)
      | (.error er, tr) => (.error er, target :: tr)

/-- The ZIP / CBZ branch of `decode` (lines 67-186): open the archive,
stage every qualifying entry, sort, compute the zero-pad width from the
total page count, rename.  Returns the result plus all files created. -/
def zipExtract (dec : Decode) (img : List String → Bool → Bool) (z : ZipInput) :
    Except DecodingError (List String) × List String :=
  if !z.openOk then (.error .FailedToOpenZipFile, [])
  else if !z.archiveOk then (.error .InvalidZipArchive, [])
  else
    match stageEntries dec img z.entries 0 with
    | (.error e, tr) => (.error e, tr)
    | (.ok pages, tr) =>
      let sorted := sortPages dec pages
      let page_num_len := (Nat.repr sorted.length).length
      let (r, tr2) := renamePages page_num_len sorted 0
      (r, tr ++ tr2)

/-! ### Document (PDF) extraction -/

/-- One embedded image object: flags for `as_jpeg()` returning `Some`
and for `fs::write` succeeding. -/
structure PdfImage where
  jpegOk : Bool := true
  writeOk : Bool := true
  deriving DecidableEq

/-- A resolved XObject: a raster image or any other kind. -/
inductive XObj
  | image (im : PdfImage)
  | other
  deriving DecidableEq

/-- One entry of a page resource dictionary: whether `pdf.get` resolves
it, and the object it resolves to. -/
structure XObjEntry where
  resolveOk : Bool := true
  obj : XObj := .other
  deriving DecidableEq

/-- One PDF page: resolution flags and its XObject resources in
resource-dictionary iteration order. -/
structure PdfPage where
  /-- The page itself resolves. -/
  pageOk : Bool := true
  /-- `page.resources()` succeeds. -/
  resourcesOk : Bool := true
  xobjects : List XObjEntry := []
  deriving DecidableEq

/-- The PDF document input. -/
structure PdfInput where
  /-- `PDFFile::open` succeeds. -/
  openOk : Bool := true
  pages : List PdfPage := []
  deriving DecidableEq

/-- The images contributed by one page (lines 212-218): the XObjects
that resolve and are raster images, in dictionary iteration order. -/
def pageImages (p : PdfPage) : List XObj :=
  p.xobjects.filterMap fun x =>
    if x.resolveOk then
      match x.obj with
      | .image _ => some x.obj
      | .other => none
    else none

/-- The page loop of the PDF branch (lines 199-222): collect the images
of every page in document order.  A page whose resolution or resource
lookup fails is, under `skip`, recorded as a warning (second component)
and contributes zero images; otherwise it aborts with that error.
`i` is the 0-based index of the first page of the list. -/
def collectImages (skip : Bool) :
    List PdfPage → Nat → Except DecodingError (List XObj × List DecodingError)
  | [], _ => .ok ([], [])
  | p :: rest, i =>
    if !p.pageOk then
      if skip then
        (collectImages skip rest (i + 1)).map fun (ims, ws) =>
          (ims, .FailedToGetPdfPage (i + 1) :: ws)
      else .error (.FailedToGetPdfPage (i + 1))
    else if !p.resourcesOk then
      if skip then
        (collectImages skip rest (i + 1)).map fun (ims, ws) =>
          (ims, .FailedToGetPdfPageResources (i + 1) :: ws)
      else .error (.FailedToGetPdfPageResources (i + 1))
    else
      (collectImages skip rest (i + 1)).map fun (ims, ws) =>
        (pageImages p ++ ims, ws)

/-- The image write loop of the PDF branch (lines 230-249): write each
image to `zero-pad(i+1, w).jpg`.  A non-image object is skipped
(`continue`, still consuming its index).  `as_jpeg().unwrap()` panics
when no JPEG form exists; a failed `fs::write` aborts with
`FailedToExtractPdfImage`.  Returns the outcome plus files written. -/
def writeImages (w : Nat) : List XObj → Nat → RunResult (List String) × List String
  | [], _ => (.ok [], [])
  | x :: rest, i =>
    match x with
    | .other => writeImages w rest (i + 1)
    | .image im =>
      let outpath := zeroPad w (i + 1) ++ ".jpg"
      if !im.jpegOk then (.panicked, [])
      else if !im.writeOk then (.err (.FailedToExtractPdfImage (i + 1) outpath), [])
      else
        match writeImages w rest (i + 1) with
        | (.ok paths, tr) => (.ok (outpath :: paths), outpath :: tr)
        | (r, tr) => (r, outpath :: tr)

/-- The PDF branch of `decode` (lines 188-252): open the document,
collect the images of all pages, compute the zero-pad width from the
image count, write the images out.  Warnings are log lines only and are
dropped here. -/
def pdfExtract (skip : Bool) (pdf : PdfInput) : RunResult (List String) × List String :=
  if !pdf.openOk then (.err .FailedToOpenPdfFile, [])
  else
    match collectImages skip pdf.pages 0 with
    | .error e => (.err e, [])
    | .ok (images, _) =>
      let page_num_len := (Nat.repr images.length).length
      writeImages page_num_len images 0

/-! ### Format dispatch -/

/-- ASCII lowercasing, the relevant fragment of Rust `to_lowercase` (the
recognized extensions `zip`, `cbz`, `pdf` are ASCII). -/
def lowerAscii (s : String) : String := ⟨s.data.map Char.toLower⟩

/-- `decode` from the extension dispatch on (lines 52-261): the input
extension selects the archive or the document extractor, or fails.
Input and output-directory validation (lines 14-49) happens before this
point and creates no output files (only the output directory).
Returns the outcome and the list of output files created. -/
def decode (dec : Decode) (img : List String → Bool → Bool) (ext? : Option OsStr)
    (z : ZipInput) (pdf : PdfInput) : RunResult (List String) × List String :=
  match ext? with
  | none => (.err (.UnsupportedFormat ""), [])
  | some .invalidUtf8 => (.err .InputFileHasInvalidUTF8FileExtension, [])
  | some (.valid ext) =>
    if lowerAscii ext = "zip" ∨ lowerAscii ext = "cbz" then
      let (r, tr) := zipExtract dec img z
      (liftExcept r, tr)
    else if lowerAscii ext = "pdf" then
      pdfExtract dec.skip_bad_pdf_pages pdf
    else
      (.err (.UnsupportedFormat ext), [])

/-! ### Decidability of result equality -/

instance {ε α : Type} [DecidableEq ε] [DecidableEq α] : DecidableEq (Except ε α) := fun x y =>
  match x, y with
  | .ok a, .ok b =>
    if h : a = b then isTrue (by rw [h]) else isFalse (by intro he; cases he; exact h rfl)
  | .ok _, .error _ => isFalse (by intro h; cases h)
  | .error _, .ok _ => isFalse (by intro h; cases h)
  | .error e, .error f =>
    if h : e = f then isTrue (by rw [h]) else isFalse (by intro he; cases he; exact h rfl)

/-! ### Order theory of the comparators

The stable-sort lemmas about `List.mergeSort` need the boolean order
induced by a comparator to be transitive and total.  Both follow from
the two comparator laws proved per comparator below: the swap law
(`OrientedCmp`) and transitivity of `≠ gt` (`TransCmp`). -/

theorem ordThen_ne_gt {o₁ o₂ : Ordering} :
    o₁.then o₂ ≠ .gt ↔ o₁ ≠ .gt ∧ (o₁ = .eq → o₂ ≠ .gt) := by
  cases o₁ <;> cases o₂ <;> decide

theorem natCompare_swap (m n : Nat) : (compare m n).swap = compare n m := by
  simp only [Nat.compare_def_lt]
  split <;> split <;> try rfl
  all_goals omega

theorem charCmp_symm (a b : Char) : (charCmp a b).swap = charCmp b a :=
  natCompare_swap ..

theorem charCmp_eq_eq {a b : Char} : charCmp a b = .eq ↔ a.toNat = b.toNat :=
  Nat.compare_eq_eq

theorem charCmp_eq_lt {a b : Char} : charCmp a b = .lt ↔ a.toNat < b.toNat :=
  Nat.compare_eq_lt

theorem charCmp_eq_gt {a b : Char} : charCmp a b = .gt ↔ b.toNat < a.toNat :=
  Nat.compare_eq_gt

theorem charCmp_le_trans {a b c : Char} (h₁ : charCmp a b ≠ .gt) (h₂ : charCmp b c ≠ .gt) :
    charCmp a c ≠ .gt := by
  intro h
  rw [charCmp_eq_gt] at h
  have k₁ : ¬b.toNat < a.toNat := fun k => h₁ (charCmp_eq_gt.2 k)
  have k₂ : ¬c.toNat < b.toNat := fun k => h₂ (charCmp_eq_gt.2 k)
  omega

instance : Batteries.OrientedCmp charCmp := ⟨charCmp_symm⟩

instance : Batteries.TransCmp charCmp := ⟨charCmp_le_trans⟩

theorem isDigit_iff {c : Char} : c.isDigit = true ↔ 48 ≤ c.toNat ∧ c.toNat ≤ 57 := by
  simp [Char.isDigit, Char.toNat, UInt32.le_def, BitVec.le_def]
  rfl

theorem natCmpChars_symm (x y : List Char) : (natCmpChars x y).swap = natCmpChars y x := by
  induction x, y using natCmpChars.induct with
  | case1 => simp [natCmpChars]; rfl
  | case2 h t => simp [natCmpChars]; rfl
  | case3 h t => simp [natCmpChars]; rfl
  | case4 a as b bs hd ih =>
    have hd' : (b.isDigit && a.isDigit) = true := by rw [Bool.and_comm]; exact hd
    simp only [natCmpChars, if_pos hd, if_pos hd']
    rw [Ordering.swap_then, natCompare_swap, ih]
  | case5 a as b bs hd ih =>
    have hd' : ¬(b.isDigit && a.isDigit) = true := by rw [Bool.and_comm]; exact hd
    simp only [natCmpChars, if_neg hd, if_neg hd']
    rw [Ordering.swap_then, charCmp_symm, ih]

instance : Batteries.OrientedCmp natCmpChars := ⟨natCmpChars_symm⟩

theorem natCmpChars_nil_left (z : List Char) : natCmpChars [] z ≠ .gt := by
  cases z <;> simp [natCmpChars]

theorem natCmpChars_cons_nil (a : Char) (as : List Char) :
    natCmpChars (a :: as) [] = .gt := by
  simp [natCmpChars]

theorem lt_pair_ne_gt {o : Ordering} (h : o = .lt) :
    o ≠ .gt ∧ (o = .eq → p) :=
  ⟨by rw [h]; decide, fun he => absurd (h ▸ he) (by decide)⟩

theorem natCmpChars_le_trans_aux :
    ∀ (n : Nat) (x y z : List Char), x.length ≤ n →
      natCmpChars x y ≠ .gt → natCmpChars y z ≠ .gt → natCmpChars x z ≠ .gt := by
  intro n
  induction n with
  | zero =>
    intro x y z hlen h1 h2
    cases x with
    | nil => exact natCmpChars_nil_left z
    | cons a as => simp at hlen
  | succ n ih =>
    intro x y z hlen h1 h2
    match x, y, z with
    | [], _, zz => exact natCmpChars_nil_left zz
    | _ :: _, [], _ => exact absurd (natCmpChars_cons_nil ..) h1
    | _ :: _, _ :: _, [] => exact absurd (natCmpChars_cons_nil ..) h2
    | a :: as, b :: bs, c :: cs =>
      simp only [List.length_cons, Nat.add_le_add_iff_right] at hlen
      by_cases da : a.isDigit = true <;> by_cases db : b.isDigit = true <;>
        by_cases dc : c.isDigit = true <;>
        simp only [natCmpChars, da, db, dc, Bool.true_and, Bool.false_and,
          Bool.and_true, Bool.and_false, Bool.false_eq_true, eq_self_iff_true,
          if_true, if_false, ordThen_ne_gt] at h1 h2 ⊢
      · -- digit, digit, digit: compare the three run values
        obtain ⟨h1a, h1b⟩ := h1
        obtain ⟨h2a, h2b⟩ := h2
        have k1 : ¬(digitsVal (b :: bs.takeWhile Char.isDigit) <
            digitsVal (a :: as.takeWhile Char.isDigit)) :=
          fun k => h1a (Nat.compare_eq_gt.2 k)
        have k2 : ¬(digitsVal (c :: cs.takeWhile Char.isDigit) <
            digitsVal (b :: bs.takeWhile Char.isDigit)) :=
          fun k => h2a (Nat.compare_eq_gt.2 k)
        refine ⟨fun h => ?_, fun he => ?_⟩
        · rw [Nat.compare_eq_gt] at h
          omega
        · rw [Nat.compare_eq_eq] at he
          have e1 : digitsVal (a :: as.takeWhile Char.isDigit) =
              digitsVal (b :: bs.takeWhile Char.isDigit) := by omega
          have e2 : digitsVal (b :: bs.takeWhile Char.isDigit) =
              digitsVal (c :: cs.takeWhile Char.isDigit) := by omega
          have hlen' : (as.dropWhile Char.isDigit).length ≤ n := by
            have := (List.dropWhile_sublist (l := as) Char.isDigit).length_le
            omega
          exact ih _ _ _ hlen' (h1b (Nat.compare_eq_eq.2 e1)) (h2b (Nat.compare_eq_eq.2 e2))
      · -- digit, digit, non-digit: b sorts before c by code point, so a does
        obtain ⟨h2a, -⟩ := h2
        rw [isDigit_iff] at da db
        rw [isDigit_iff] at dc
        cases e : charCmp b c with
        | lt =>
          rw [charCmp_eq_lt] at e
          exact lt_pair_ne_gt (charCmp_eq_lt.2 (by omega))
        | eq => rw [charCmp_eq_eq] at e; omega
        | gt => exact absurd e h2a
      · -- digit, non-digit, digit: impossible (b above and below the digits)
        obtain ⟨h1a, h1b⟩ := h1
        obtain ⟨h2a, h2b⟩ := h2
        rw [isDigit_iff] at da dc
        rw [isDigit_iff] at db
        cases e1 : charCmp a b with
        | lt =>
          rw [charCmp_eq_lt] at e1
          cases e2 : charCmp b c with
          | lt => rw [charCmp_eq_lt] at e2; omega
          | eq => rw [charCmp_eq_eq] at e2; omega
          | gt => exact absurd e2 h2a
        | eq => rw [charCmp_eq_eq] at e1; omega
        | gt => exact absurd e1 h1a
      · -- digit, non-digit, non-digit
        obtain ⟨h1a, -⟩ := h1
        obtain ⟨h2a, h2b⟩ := h2
        rw [isDigit_iff] at da
        rw [isDigit_iff] at db dc
        cases e1 : charCmp a b with
        | lt =>
          rw [charCmp_eq_lt] at e1
          cases e2 : charCmp b c with
          | lt =>
            rw [charCmp_eq_lt] at e2
            exact lt_pair_ne_gt (charCmp_eq_lt.2 (by omega))
          | eq =>
            rw [charCmp_eq_eq] at e2
            exact lt_pair_ne_gt (charCmp_eq_lt.2 (by omega))
          | gt => exact absurd e2 h2a
        | eq => rw [charCmp_eq_eq] at e1; omega
        | gt => exact absurd e1 h1a
      · -- non-digit, digit, digit
        obtain ⟨h1a, -⟩ := h1
        rw [isDigit_iff] at db dc
        rw [isDigit_iff] at da
        cases e1 : charCmp a b with
        | lt =>
          rw [charCmp_eq_lt] at e1
          exact lt_pair_ne_gt (charCmp_eq_lt.2 (by omega))
        | eq => rw [charCmp_eq_eq] at e1; omega
        | gt => exact absurd e1 h1a
      · -- non-digit, digit, non-digit
        obtain ⟨h1a, -⟩ := h1
        obtain ⟨h2a, -⟩ := h2
        rw [isDigit_iff] at db
        rw [isDigit_iff] at da dc
        cases e1 : charCmp a b with
        | lt =>
          rw [charCmp_eq_lt] at e1
          cases e2 : charCmp b c with
          | lt =>
            rw [charCmp_eq_lt] at e2
            exact lt_pair_ne_gt (charCmp_eq_lt.2 (by omega))
          | eq => rw [charCmp_eq_eq] at e2; omega
          | gt => exact absurd e2 h2a
        | eq => rw [charCmp_eq_eq] at e1; omega
        | gt => exact absurd e1 h1a
      · -- non-digit, non-digit, digit
        obtain ⟨h1a, h1b⟩ := h1
        obtain ⟨h2a, -⟩ := h2
        rw [isDigit_iff] at dc
        rw [isDigit_iff] at da db
        cases e2 : charCmp b c with
        | lt =>
          rw [charCmp_eq_lt] at e2
          cases e1 : charCmp a b with
          | lt =>
            rw [charCmp_eq_lt] at e1
            exact lt_pair_ne_gt (charCmp_eq_lt.2 (by omega))
          | eq =>
            rw [charCmp_eq_eq] at e1
            exact lt_pair_ne_gt (charCmp_eq_lt.2 (by omega))
          | gt => exact absurd e1 h1a
        | eq => rw [charCmp_eq_eq] at e2; omega
        | gt => exact absurd e2 h2a
      · -- non-digit, non-digit, non-digit
        obtain ⟨h1a, h1b⟩ := h1
        obtain ⟨h2a, h2b⟩ := h2
        cases e1 : charCmp a b with
        | lt =>
          rw [charCmp_eq_lt] at e1
          cases e2 : charCmp b c with
          | lt =>
            rw [charCmp_eq_lt] at e2
            exact lt_pair_ne_gt (charCmp_eq_lt.2 (by omega))
          | eq =>
            rw [charCmp_eq_eq] at e2
            exact lt_pair_ne_gt (charCmp_eq_lt.2 (by omega))
          | gt => exact absurd e2 h2a
        | eq =>
          have e1' := e1
          rw [charCmp_eq_eq] at e1
          cases e2 : charCmp b c with
          | lt =>
            rw [charCmp_eq_lt] at e2
            exact lt_pair_ne_gt (charCmp_eq_lt.2 (by omega))
          | eq =>
            have e2' := e2
            rw [charCmp_eq_eq] at e2
            refine ⟨fun h => ?_, fun _ => ih _ _ _ hlen (h1b e1') (h2b e2')⟩
            · rw [charCmp_eq_gt] at h
              omega
          | gt => exact absurd e2 h2a
        | gt => exact absurd e1 h1a

theorem natCmpChars_le_trans {x y z : List Char} (h1 : natCmpChars x y ≠ .gt)
    (h2 : natCmpChars y z ≠ .gt) : natCmpChars x z ≠ .gt :=
  natCmpChars_le_trans_aux x.length x y z le_rfl h1 h2

instance : Batteries.TransCmp natCmpChars := ⟨natCmpChars_le_trans⟩

theorem lexCmp_symm (c : α → α → Ordering) [Batteries.OrientedCmp c] :
    ∀ (x y : List α), (lexCmp c x y).swap = lexCmp c y x
  | [], [] => rfl
  | [], _ :: _ => rfl
  | _ :: _, [] => rfl
  | a :: as, b :: bs => by
    simp only [lexCmp, Ordering.swap_then]
    rw [Batteries.OrientedCmp.symm, lexCmp_symm c as bs]

theorem lexCmp_le_trans (c : α → α → Ordering) [Batteries.TransCmp c] :
    ∀ (x y z : List α), lexCmp c x y ≠ .gt → lexCmp c y z ≠ .gt → lexCmp c x z ≠ .gt := by
  intro x
  induction x with
  | nil => intro y z h1 h2; cases z <;> simp [lexCmp]
  | cons a as ih =>
    intro y z h1 h2
    cases y with
    | nil => simp [lexCmp] at h1
    | cons b bs =>
      cases z with
      | nil => simp [lexCmp] at h2
      | cons d ds =>
        simp only [lexCmp, ordThen_ne_gt] at h1 h2 ⊢
        obtain ⟨h1a, h1b⟩ := h1
        obtain ⟨h2a, h2b⟩ := h2
        refine ⟨Batteries.TransCmp.le_trans h1a h2a, fun he => ?_⟩
        cases e1 : c a b with
        | gt => exact absurd e1 h1a
        | lt =>
          exfalso
          cases e2 : c b d with
          | gt => exact absurd e2 h2a
          | lt =>
            have : c a d = .lt := Batteries.TransCmp.lt_trans e1 e2
            rw [he] at this
            cases this
          | eq =>
            have : c a b = c a d := Batteries.TransCmp.cmp_congr_right e2
            rw [he, e1] at this
            cases this
        | eq =>
          have hbd : c b d = .eq := by
            rw [← Batteries.TransCmp.cmp_congr_left e1]
            exact he
          exact ih bs ds (h1b e1) (h2b hbd)

instance (c : α → α → Ordering) [Batteries.OrientedCmp c] :
    Batteries.OrientedCmp (lexCmp c) := ⟨fun x y => lexCmp_symm c x y⟩

instance (c : α → α → Ordering) [Batteries.TransCmp c] :
    Batteries.TransCmp (lexCmp c) := ⟨fun h1 h2 => lexCmp_le_trans c _ _ _ h1 h2⟩

instance : Batteries.OrientedCmp natSegCmp := ⟨fun a b => natCmpChars_symm a.data b.data⟩

instance : Batteries.TransCmp natSegCmp := ⟨natCmpChars_le_trans⟩

instance : Batteries.OrientedCmp natural_paths_cmp :=
  ⟨fun x y => lexCmp_symm natSegCmp x y⟩

instance : Batteries.TransCmp natural_paths_cmp :=
  ⟨fun h1 h2 => lexCmp_le_trans natSegCmp _ _ _ h1 h2⟩

instance : Batteries.OrientedCmp segLexCmp := ⟨fun a b => lexCmp_symm charCmp a.data b.data⟩

instance : Batteries.TransCmp segLexCmp := ⟨fun h1 h2 => lexCmp_le_trans charCmp _ _ _ h1 h2⟩

instance : Batteries.OrientedCmp pathLexCmp :=
  ⟨fun x y => lexCmp_symm segLexCmp x y⟩

instance : Batteries.TransCmp pathLexCmp :=
  ⟨fun h1 h2 => lexCmp_le_trans segLexCmp _ _ _ h1 h2⟩

/-! ### The boolean order used by the stable sort -/

theorem isLE_iff_ne_gt {o : Ordering} : o.isLE = true ↔ o ≠ .gt := by
  cases o <;> decide

theorem cmpLE_trans (c : α → α → Ordering) [Batteries.TransCmp c] {x y z : α}
    (h1 : (c x y).isLE = true) (h2 : (c y z).isLE = true) : (c x z).isLE = true := by
  rw [isLE_iff_ne_gt] at h1 h2 ⊢
  exact Batteries.TransCmp.le_trans h1 h2

theorem cmpLE_total (c : α → α → Ordering) [Batteries.OrientedCmp c] (x y : α) :
    ((c x y).isLE || (c y x).isLE) = true := by
  cases e : c x y with
  | lt => simp [Ordering.isLE]
  | eq => simp [Ordering.isLE]
  | gt =>
    have : (c x y).swap = c y x := Batteries.OrientedCmp.symm x y
    rw [e] at this
    simp [← this, Ordering.isLE, Ordering.swap]

/-! ### Length of the decimal representation

`page_num_len` in the source is `pages.len().to_string().len()`; the
model writes it `(Nat.repr N).length`.  The facts needed about it are
that it equals the number of decimal digits and that it is monotone. -/

/-- Number of decimal digits of a natural number (1 for 0). -/
def dLen (n : Nat) : Nat :=
  if n < 10 then 1 else dLen (n / 10) + 1
decreasing_by
  have : 0 < n := by omega
  exact Nat.div_lt_self this (by omega)

theorem dLen_small {n : Nat} (h : n < 10) : dLen n = 1 := by
  rw [dLen, if_pos h]

theorem dLen_large {n : Nat} (h : ¬n < 10) : dLen n = dLen (n / 10) + 1 := by
  rw [dLen]
  rw [if_neg h]

theorem toDigitsCore_len :
    ∀ (f n : Nat) (ds : List Char), n < f →
      (Nat.toDigitsCore 10 f n ds).length = dLen n + ds.length := by
  intro f
  induction f with
  | zero => intro n ds hn; omega
  | succ f ih =>
    intro n ds hn
    rw [Nat.toDigitsCore]
    by_cases h : n / 10 = 0
    · rw [if_pos h]
      rw [dLen_small (by omega)]
      simp only [List.length_cons]
      omega
    · rw [if_neg h]
      have hrec := ih (n / 10) (Nat.digitChar (n % 10) :: ds) (by omega)
      rw [hrec]
      have hb : ¬n < 10 := by omega
      rw [dLen_large hb]
      simp only [List.length_cons]
      omega

theorem repr_length_eq_dLen (n : Nat) : (Nat.repr n).length = dLen n := by
  have : (Nat.repr n).length = (Nat.toDigitsCore 10 (n + 1) n []).length := rfl
  rw [this, toDigitsCore_len (n + 1) n [] (Nat.lt_succ_self n)]
  simp

theorem dLen_mono : ∀ {n m : Nat}, m ≤ n → dLen m ≤ dLen n := by
  intro n
  induction n using Nat.strong_induction_on with
  | _ n ih =>
    intro m h
    by_cases hm : m < 10
    · rw [dLen_small hm]
      by_cases hn : n < 10
      · rw [dLen_small hn]
      · rw [dLen_large hn]
        omega
    · have hn : ¬n < 10 := by omega
      rw [dLen_large hm, dLen_large hn]
      have hd : n / 10 < n := Nat.div_lt_self (by omega) (by omega)
      have := ih (n / 10) hd (Nat.div_le_div_right h)
      omega

theorem repr_length_mono {m n : Nat} (h : m ≤ n) :
    (Nat.repr m).length ≤ (Nat.repr n).length := by
  rw [repr_length_eq_dLen, repr_length_eq_dLen]
  exact dLen_mono h

theorem string_length_mk (l : List Char) : String.length ⟨l⟩ = l.length := rfl

theorem zeroPad_length (w n : Nat) :
    (zeroPad w n).length = max w (Nat.repr n).length := by
  rw [zeroPad]
  rw [String.length_append, string_length_mk, List.length_replicate]
  omega

/-- The numeric part of a final name has exactly the zero-pad width
whenever the number printed is no longer than the width demands. -/
theorem zeroPad_length_exact {w n : Nat} (h : (Nat.repr n).length ≤ w) :
    (zeroPad w n).length = w := by
  rw [zeroPad_length]
  omega

/-! ### Characterizations of the pipeline loops -/

/-- The final names the rename loop assigns to staged pages, starting at
0-based index `i`. -/
def finalNames (w : Nat) : Nat → List ExtractedFile → List String
  | _, [] => []
  | i, p :: rest => targetName w i p.extension :: finalNames w (i + 1) rest

theorem finalNames_length (w : Nat) :
    ∀ (i : Nat) (ps : List ExtractedFile), (finalNames w i ps).length = ps.length := by
  intro i ps
  induction ps generalizing i with
  | nil => rfl
  | cons p rest ih => simp [finalNames, ih]

theorem finalNames_get (w : Nat) :
    ∀ (ps : List ExtractedFile) (i j : Nat) (h1 : j < (finalNames w i ps).length)
      (h2 : j < ps.length),
      (finalNames w i ps).get ⟨j, h1⟩ = targetName w (i + j) (ps.get ⟨j, h2⟩).extension := by
  intro ps
  induction ps with
  | nil => intro i j h1 h2; simp at h2
  | cons p rest ih =>
    intro i j h1 h2
    cases j with
    | zero => simp [finalNames]
    | succ j =>
      have h1' : j < (finalNames w (i + 1) rest).length := by
        rw [finalNames_length]
        simp at h2
        omega
      have h2' : j < rest.length := by simp at h2; omega
      have := ih (i + 1) j h1' h2'
      simp only [finalNames, List.get_cons_succ]
      rw [this]
      congr 1
      omega

theorem renamePages_ok_eq (w : Nat) :
    ∀ (ps : List ExtractedFile) (i : Nat) (out tr : List String),
      renamePages w ps i = (.ok out, tr) → out = finalNames w i ps ∧ tr = out := by
  intro ps
  induction ps with
  | nil =>
    intro i out tr h
    simp only [renamePages] at h
    cases h
    exact ⟨rfl, rfl⟩
  | cons p rest ih =>
    intro i out tr h
    simp only [renamePages] at h
    by_cases hr : p.renameOk = true
    · rw [hr] at h
      simp only [Bool.not_true, Bool.false_eq_true, if_false] at h
      cases e : renamePages w rest (i + 1) with
      | mk r tr' =>
        rw [e] at h
        cases r with
        | ok out' =>
          cases h
          obtain ⟨h1, h2⟩ := ih (i + 1) out' tr' e
          subst h1
          subst h2
          exact ⟨rfl, rfl⟩
        | error er => cases h
    · simp only [Bool.not_eq_true] at hr
      rw [hr] at h
      simp only [Bool.not_false, eq_self_iff_true, if_true] at h
      cases h

theorem renamePages_all_ok (w : Nat) :
    ∀ (ps : List ExtractedFile) (i : Nat), (∀ p ∈ ps, p.renameOk = true) →
      renamePages w ps i = (.ok (finalNames w i ps), finalNames w i ps) := by
  intro ps
  induction ps with
  | nil => intro i _; rfl
  | cons p rest ih =>
    intro i hall
    have hp : p.renameOk = true := hall p (by simp)
    have hrest := ih (i + 1) (fun q hq => hall q (by simp [hq]))
    simp only [renamePages, hp, Bool.not_true, Bool.false_eq_true, if_false, hrest, finalNames]

/-- An entry that is a file but fails the images-only filter is skipped:
the loop state (staged pages, created files, temp counter) is untouched. -/
theorem stageEntries_skip_filtered (dec : Decode) (img : List String → Bool → Bool)
    (e : ZipEntry) (rest : List ZipEntry) (k : Nat)
    (hidx : e.byIndexOk = true) (hf : e.isFile = true)
    (honly : dec.extract_images_only = true)
    (himg : img e.name dec.accept_extended_image_formats = false) :
    stageEntries dec img (e :: rest) k = stageEntries dec img rest k := by
  simp only [stageEntries, hidx, hf, honly, himg, Bool.not_true, Bool.false_eq_true,
    if_false, Bool.true_and, Bool.not_false, eq_self_iff_true, if_true]

/-- A directory entry is always skipped. -/
theorem stageEntries_skip_dir (dec : Decode) (img : List String → Bool → Bool)
    (e : ZipEntry) (rest : List ZipEntry) (k : Nat)
    (hidx : e.byIndexOk = true) (hd : e.isFile = false) :
    stageEntries dec img (e :: rest) k = stageEntries dec img rest k := by
  simp only [stageEntries, hidx, hd, Bool.not_true, Bool.false_eq_true, if_false,
    eq_self_iff_true, if_true]

/-- If every entry is readable and either a directory or filtered out,
staging succeeds with zero pages and zero created files. -/
theorem stageEntries_all_skipped (dec : Decode) (img : List String → Bool → Bool) :
    ∀ (entries : List ZipEntry) (k : Nat),
      (∀ e ∈ entries, e.byIndexOk = true ∧
        (e.isFile = false ∨ (dec.extract_images_only = true ∧
          img e.name dec.accept_extended_image_formats = false))) →
      stageEntries dec img entries k = (.ok [], []) := by
  intro entries
  induction entries with
  | nil => intro k _; rfl
  | cons e rest ih =>
    intro k hall
    obtain ⟨hidx, hcase⟩ := hall e (by simp)
    have hrest := ih k (fun q hq => hall q (by simp [hq]))
    cases hcase with
    | inl hd => rw [stageEntries_skip_dir dec img e rest k hidx hd, hrest]
    | inr hio =>
      by_cases hf : e.isFile = true
      · rw [stageEntries_skip_filtered dec img e rest k hidx hf hio.1 hio.2, hrest]
      · simp only [Bool.not_eq_true] at hf
        rw [stageEntries_skip_dir dec img e rest k hidx hf, hrest]

/-- A qualifying entry whose staging operations all succeed contributes
one staged page and one temporary file. -/
theorem stageEntries_cons_good (dec : Decode) (img : List String → Bool → Bool)
    (e : ZipEntry) (rest : List ZipEntry) (k : Nat)
    (hidx : e.byIndexOk = true) (hf : e.isFile = true)
    (hpass : dec.extract_images_only = false ∨
      img e.name dec.accept_extended_image_formats = true)
    (hvalid : e.extValidUtf8 = true) (hc : e.createOk = true) (hcp : e.copyOk = true) :
    stageEntries dec img (e :: rest) k =
      (match stageEntries dec img rest (k + 1) with
       | (.ok pages, tr) =>
         (.ok ({ path_in_zip := e.name, extracted_path := tmpName k,
                 extension := pathExtension e.name, renameOk := e.renameOk } :: pages),
          tmpName k :: tr)
       | (.error er, tr) => (.error er, tmpName k :: tr)) := by
  have hfilter : (dec.extract_images_only &&
      !img e.name dec.accept_extended_image_formats) = false := by
    cases hpass with
    | inl h => simp [h]
    | inr h => simp [h]
  simp only [stageEntries, hidx, hf, hfilter, hvalid, hc, hcp, Bool.not_true,
    Bool.false_eq_true, if_false, eq_self_iff_true, if_true]
  cases hx : pathExtension e.name <;> rfl

/-! ### Characterization of the PDF page loop -/

/-- Whether a page survives resolution and resource lookup. -/
def pageGood (p : PdfPage) : Bool := p.pageOk && p.resourcesOk

/-- The error the page loop produces for a failing page at 1-based
position `i`. -/
def pageErrAt (i : Nat) (p : PdfPage) : DecodingError :=
  if !p.pageOk then .FailedToGetPdfPage i else .FailedToGetPdfPageResources i

/-- The images contributed by the surviving pages, in document order. -/
def goodImages : List PdfPage → List XObj
  | [] => []
  | p :: rest => (if pageGood p then pageImages p else []) ++ goodImages rest

/-- The warnings the skip path records, one per failing page, in page
order (`i` the 0-based index of the first page). -/
def skipWarnings : Nat → List PdfPage → List DecodingError
  | _, [] => []
  | i, p :: rest =>
    if pageGood p then skipWarnings (i + 1) rest
    else pageErrAt (i + 1) p :: skipWarnings (i + 1) rest

theorem goodImages_append (xs ys : List PdfPage) :
    goodImages (xs ++ ys) = goodImages xs ++ goodImages ys := by
  induction xs with
  | nil => rfl
  | cons p rest ih => simp [goodImages, ih]

theorem skipWarnings_append :
    ∀ (xs ys : List PdfPage) (i : Nat),
      skipWarnings i (xs ++ ys) = skipWarnings i xs ++ skipWarnings (i + xs.length) ys := by
  intro xs
  induction xs with
  | nil => intro ys i; simp [skipWarnings]
  | cons p rest ih =>
    intro ys i
    have harith : i + 1 + rest.length = i + (p :: rest).length := by
      simp only [List.length_cons]
      omega
    by_cases hp : pageGood p = true
    · simp only [List.cons_append, skipWarnings, hp, if_true, eq_self_iff_true,
        List.append_eq, ih ys (i + 1), harith]
    · simp only [Bool.not_eq_true] at hp
      simp only [List.cons_append, skipWarnings, hp, Bool.false_eq_true, if_false,
        List.append_eq, ih ys (i + 1), harith, List.cons_append]

/-- With `skip_bad_pdf_pages` set, the page loop never fails: it returns
the images of the surviving pages and one warning per failing page. -/
theorem collectImages_skip_char :
    ∀ (ps : List PdfPage) (i : Nat),
      collectImages true ps i = .ok (goodImages ps, skipWarnings i ps) := by
  intro ps
  induction ps with
  | nil => intro i; rfl
  | cons p rest ih =>
    intro i
    by_cases hp : p.pageOk = true
    · by_cases hr : p.resourcesOk = true
      · have hgood : pageGood p = true := by simp [pageGood, hp, hr]
        simp only [collectImages, hp, hr, Bool.not_true, Bool.false_eq_true, if_false,
          ih (i + 1), Except.map, goodImages, skipWarnings, hgood, if_true]
      · have hbad : pageGood p = false := by simp [pageGood, hr]
        simp only [Bool.not_eq_true] at hr
        simp only [collectImages, hp, hr, Bool.not_true, Bool.not_false,
          Bool.false_eq_true, if_false, eq_self_iff_true, if_true, ih (i + 1),
          Except.map, goodImages, skipWarnings, hbad, pageErrAt]
        simp [hr]
    · have hbad : pageGood p = false := by simp [pageGood, hp]
      simp only [Bool.not_eq_true] at hp
      simp only [collectImages, hp, Bool.not_false, eq_self_iff_true, if_true,
        ih (i + 1), Except.map, goodImages, skipWarnings, hbad, Bool.false_eq_true,
        if_false, pageErrAt]
      simp [hp]

/-- Without the skip flag, the first failing page aborts the page loop
with that page's error. -/
theorem collectImages_noskip_err :
    ∀ (pre : List PdfPage) (bad : PdfPage) (post : List PdfPage) (i : Nat),
      (∀ p ∈ pre, pageGood p = true) → pageGood bad = false →
      collectImages false (pre ++ bad :: post) i =
        .error (pageErrAt (i + pre.length + 1) bad) := by
  intro pre
  induction pre with
  | nil =>
    intro bad post i _ hbad
    rw [pageGood, Bool.and_eq_false_iff] at hbad
    simp only [List.nil_append]
    cases hbad with
    | inl hp => simp [collectImages, hp, pageErrAt]
    | inr hr =>
      by_cases hp : bad.pageOk = true
      · simp [collectImages, hp, hr, pageErrAt]
      · simp only [Bool.not_eq_true] at hp
        simp [collectImages, hp, pageErrAt]
  | cons q pre ih =>
    intro bad post i hall hbad
    have hq : pageGood q = true := hall q (by simp)
    rw [pageGood, Bool.and_eq_true] at hq
    have ihx := ih bad post (i + 1) (fun p hp => hall p (by simp [hp])) hbad
    have harr : i + 1 + pre.length + 1 = i + (q :: pre).length + 1 := by
      simp only [List.length_cons]
      omega
    rw [harr] at ihx
    simp [collectImages, hq.1, hq.2, ihx, Except.map]

/-! ### Characterization of the PDF write loop -/

/-- The names the write loop assigns: `zero-pad(i+1, w).jpg` for `n`
consecutive images starting at 0-based index `i`. -/
def jpgNames (w : Nat) : Nat → Nat → List String
  | _, 0 => []
  | i, n + 1 => (zeroPad w (i + 1) ++ ".jpg") :: jpgNames w (i + 1) n

theorem jpgNames_length (w : Nat) :
    ∀ (n i : Nat), (jpgNames w i n).length = n := by
  intro n
  induction n with
  | zero => intro i; rfl
  | succ n ih => intro i; simp [jpgNames, ih]

theorem jpgNames_get (w : Nat) :
    ∀ (n i j : Nat) (h : j < (jpgNames w i n).length),
      (jpgNames w i n).get ⟨j, h⟩ = zeroPad w (i + j + 1) ++ ".jpg" := by
  intro n
  induction n with
  | zero => intro i j h; simp [jpgNames] at h
  | succ n ih =>
    intro i j h
    cases j with
    | zero => simp [jpgNames]
    | succ j =>
      have h' : j < (jpgNames w (i + 1) n).length := by
        simp only [jpgNames, List.length_cons] at h
        omega
      simp only [jpgNames, List.get_cons_succ]
      rw [ih (i + 1) j h']
      congr 2
      omega

/-- An image is writable when its JPEG form exists and its write
succeeds. -/
def writable (x : XObj) : Prop :=
  ∃ im : PdfImage, x = .image im ∧ im.jpegOk = true ∧ im.writeOk = true

/-- When every collected object is a writable image, the write loop
writes all of them, producing consecutively numbered `.jpg` names. -/
theorem writeImages_all_ok (w : Nat) :
    ∀ (ims : List XObj) (i : Nat), (∀ x ∈ ims, writable x) →
      writeImages w ims i = (.ok (jpgNames w i ims.length), jpgNames w i ims.length) := by
  intro ims
  induction ims with
  | nil => intro i _; rfl
  | cons x rest ih =>
    intro i hall
    obtain ⟨im, hx, hj, hw⟩ := hall x (by simp)
    subst hx
    have hrest := ih (i + 1) (fun y hy => hall y (by simp [hy]))
    simp only [writeImages, hj, hw, Bool.not_true, Bool.false_eq_true, if_false, hrest,
      List.length_cons, jpgNames]

/-- The write loop panics at the first image whose JPEG form cannot be
produced, provided every earlier object is a writable image. -/
theorem writeImages_panics (w : Nat) :
    ∀ (good : List XObj) (im : PdfImage) (rest : List XObj) (i : Nat),
      (∀ x ∈ good, writable x) → im.jpegOk = false →
      (writeImages w (good ++ XObj.image im :: rest) i).1 = .panicked := by
  intro good
  induction good with
  | nil =>
    intro im rest i _ hbad
    simp [writeImages, hbad]
  | cons x good ih =>
    intro im rest i hall hbad
    obtain ⟨xm, hx, hj, hw⟩ := hall x (by simp)
    subst hx
    have := ih im rest (i + 1) (fun y hy => hall y (by simp [hy])) hbad
    simp only [List.cons_append, writeImages, hj, hw, Bool.not_true, Bool.false_eq_true,
      if_false]
    cases e : writeImages w (good ++ XObj.image im :: rest) (i + 1) with
    | mk r tr =>
      rw [e] at this
      simp only at this
      subst this
      rfl

/-- Everything the page loop collects is an image object. -/
theorem collectImages_all_image :
    ∀ (skip : Bool) (ps : List PdfPage) (i : Nat) (ims : List XObj)
      (ws : List DecodingError),
      collectImages skip ps i = .ok (ims, ws) →
      ∀ x ∈ ims, ∃ im : PdfImage, x = .image im := by
  intro skip ps
  induction ps with
  | nil =>
    intro i ims ws h x hx
    simp only [collectImages] at h
    cases h
    simp at hx
  | cons p rest ih =>
    intro i ims ws h x hx
    simp only [collectImages] at h
    by_cases hp : p.pageOk = true
    · by_cases hr : p.resourcesOk = true
      · rw [hp, hr] at h
        simp only [Bool.not_true, Bool.false_eq_true, if_false] at h
        cases e : collectImages skip rest (i + 1) with
        | error er => rw [e] at h; cases h
        | ok pair =>
          rw [e] at h
          simp only [Except.map] at h
          cases h
          rcases List.mem_append.1 hx with hmem | hmem
          · simp only [pageImages, List.mem_filterMap] at hmem
            obtain ⟨entry, -, hentry⟩ := hmem
            by_cases hres : entry.resolveOk = true
            · rw [if_pos hres] at hentry
              cases ho : entry.obj with
              | image im => rw [ho] at hentry; simp at hentry; exact ⟨im, hentry.symm⟩
              | other => rw [ho] at hentry; simp at hentry
            · rw [if_neg hres] at hentry; cases hentry
          · exact ih (i + 1) pair.1 pair.2 (by rw [e]) x hmem
      · rw [hp] at h
        simp only [Bool.not_true, Bool.false_eq_true, if_false] at h
        simp only [Bool.not_eq_true] at hr
        rw [hr] at h
        simp only [Bool.not_false, eq_self_iff_true, if_true] at h
        cases skip with
        | false => cases h
        | true =>
          cases e : collectImages true rest (i + 1) with
          | error er => rw [e] at h; cases h
          | ok pair =>
            rw [e] at h
            simp only [Except.map] at h
            cases h
            exact ih (i + 1) pair.1 pair.2 (by rw [e]) x hx
    · simp only [Bool.not_eq_true] at hp
      rw [hp] at h
      simp only [Bool.not_false, eq_self_iff_true, if_true] at h
      cases skip with
      | false => cases h
      | true =>
        cases e : collectImages true rest (i + 1) with
        | error er => rw [e] at h; cases h
        | ok pair =>
          rw [e] at h
          simp only [Except.map] at h
          cases h
          exact ih (i + 1) pair.1 pair.2 (by rw [e]) x hx

/-! ## Claim theorems -/

/-- C2: for every input path the dispatcher selects exactly one
extractor from the extension compared case-insensitively: `zip` or
`cbz` run the archive extractor, `pdf` runs the document extractor, any
other extension fails with `UnsupportedFormat` carrying that extension,
a missing extension fails with `UnsupportedFormat` on the empty
extension marker, and an extension that is not valid UTF-8 fails with
the distinct invalid-encoding error. -/
theorem C2_dispatch (dec : Decode) (img : List String → Bool → Bool)
    (z : ZipInput) (pdf : PdfInput) (s : String) :
    ((lowerAscii s = "zip" ∨ lowerAscii s = "cbz") →
      decode dec img (some (.valid s)) z pdf =
        (liftExcept (zipExtract dec img z).1, (zipExtract dec img z).2)) ∧
    (lowerAscii s = "pdf" →
      decode dec img (some (.valid s)) z pdf = pdfExtract dec.skip_bad_pdf_pages pdf) ∧
    (lowerAscii s ≠ "zip" → lowerAscii s ≠ "cbz" → lowerAscii s ≠ "pdf" →
      decode dec img (some (.valid s)) z pdf = (.err (.UnsupportedFormat s), [])) ∧
    decode dec img none z pdf = (.err (.UnsupportedFormat ""), []) ∧
    decode dec img (some .invalidUtf8) z pdf =
      (.err .InputFileHasInvalidUTF8FileExtension, []) := by
  refine ⟨?_, ?_, ?_, rfl, rfl⟩
  · intro h
    simp only [decode, if_pos h]
  · intro h
    have h1 : ¬(lowerAscii s = "zip" ∨ lowerAscii s = "cbz") := by
      rintro (hz | hc)
      · exact absurd (h.symm.trans hz) (by decide)
      · exact absurd (h.symm.trans hc) (by decide)
    simp only [decode, if_neg h1, if_pos h]
  · intro h1 h2 h3
    have hno : ¬(lowerAscii s = "zip" ∨ lowerAscii s = "cbz") := by
      rintro (hz | hc)
      · exact h1 hz
      · exact h2 hc
    simp only [decode, if_neg hno, if_neg h3]

theorem C2_dispatch_witness :
    decode ⟨true, false, false, false⟩ (fun _ _ => true) (some (.valid "CbZ")) {} {} =
      (liftExcept (zipExtract ⟨true, false, false, false⟩ (fun _ _ => true) {}).1,
       (zipExtract ⟨true, false, false, false⟩ (fun _ _ => true) {}).2) ∧
    decode ⟨true, false, false, false⟩ (fun _ _ => true) (some (.valid "PDF")) {} {} =
      pdfExtract false {} ∧
    decode ⟨true, false, false, false⟩ (fun _ _ => true) (some (.valid "rar")) {} {} =
      (.err (.UnsupportedFormat "rar"), []) :=
  ⟨(C2_dispatch ⟨true, false, false, false⟩ (fun _ _ => true) {} {} "CbZ").1
      (Or.inr (by decide)),
   (C2_dispatch ⟨true, false, false, false⟩ (fun _ _ => true) {} {} "PDF").2.1 (by decide),
   (C2_dispatch ⟨true, false, false, false⟩ (fun _ _ => true) {} {} "rar").2.2.1
      (by decide) (by decide) (by decide)⟩

/-- C9: an input whose extension is not zip, cbz or pdf
(case-insensitively) makes `decode` return `UnsupportedFormat` carrying
that extension and create no output files (empty creation trace); the
extension of an input named `comic.txt` is `txt`. -/
theorem C9_unsupported (dec : Decode) (img : List String → Bool → Bool)
    (z : ZipInput) (pdf : PdfInput) (s : String)
    (h1 : lowerAscii s ≠ "zip") (h2 : lowerAscii s ≠ "cbz") (h3 : lowerAscii s ≠ "pdf") :
    decode dec img (some (.valid s)) z pdf = (.err (.UnsupportedFormat s), []) ∧
    rustFileExtension "comic.txt" = some "txt" :=
  ⟨(C2_dispatch dec img z pdf s).2.2.1 h1 h2 h3, by decide⟩

theorem C9_unsupported_witness :
    decode ⟨true, false, false, false⟩ (fun _ _ => true) (some (.valid "txt")) {} {} =
      (.err (.UnsupportedFormat "txt"), []) ∧
    rustFileExtension "comic.txt" = some "txt" :=
  C9_unsupported ⟨true, false, false, false⟩ (fun _ _ => true) {} {} "txt"
    (by decide) (by decide) (by decide)

/-- C10: extracting an archive in which every entry is skipped (a
directory, or filtered out by the images-only predicate) succeeds with
an empty list of paths and no created files, rather than erroring. -/
theorem C10_empty_archive (dec : Decode) (img : List String → Bool → Bool) (z : ZipInput)
    (hopen : z.openOk = true) (harch : z.archiveOk = true)
    (hall : ∀ e ∈ z.entries, e.byIndexOk = true ∧
      (e.isFile = false ∨ (dec.extract_images_only = true ∧
        img e.name dec.accept_extended_image_formats = false))) :
    zipExtract dec img z = (.ok [], []) := by
  simp only [zipExtract, hopen, harch, Bool.not_true, Bool.false_eq_true, if_false,
    stageEntries_all_skipped dec img z.entries 0 hall]
  simp [sortPages, renamePages]

theorem C10_empty_archive_witness :
    zipExtract ⟨true, false, false, false⟩ (fun n _ => n = ["a.png"])
      { entries := [{ name := ["dir"], isFile := false }, { name := ["b.txt"] }] } =
      (.ok [], []) :=
  C10_empty_archive ⟨true, false, false, false⟩ (fun n _ => n = ["a.png"])
    { entries := [{ name := ["dir"], isFile := false }, { name := ["b.txt"] }] }
    rfl rfl (by decide)

/-- C1 counterexample: a PDF holding exactly one image whose JPEG form
cannot be produced does not extract to an (empty) list of writable
images; `as_jpeg().unwrap()` panics instead. -/
theorem C1_counterexample :
    pdfExtract true
      { pages := [{ xobjects := [{ obj := .image { jpegOk := false } }] }] } =
      (.panicked, []) := by
  decide

/-- C1 amended: in the document extractor, an image whose encoded
(JPEG) form cannot be produced is not skipped: the write loop panics at
the first such image (here with every earlier object a writable image),
so no list of output paths is returned. -/
theorem C1_amended_panic (w : Nat) (good : List XObj) (im : PdfImage) (rest : List XObj)
    (i : Nat) (hgood : ∀ x ∈ good, writable x) (hbad : im.jpegOk = false) :
    (writeImages w (good ++ XObj.image im :: rest) i).1 = .panicked :=
  writeImages_panics w good im rest i hgood hbad

theorem C1_amended_panic_witness :
    (writeImages 1 ([XObj.image {}] ++ XObj.image { jpegOk := false } :: []) 0).1 =
      .panicked :=
  C1_amended_panic 1 [XObj.image {}] { jpegOk := false } [] 0
    (by intro x hx; simp at hx; exact ⟨{}, hx, rfl, rfl⟩) rfl

/-- C3: in the document extractor, a page whose resolution or resource
lookup fails contributes zero images.  With `skip_bad_pdf_pages` a
warning is recorded for exactly the failing pages and collection
continues (first and second conjuncts); without it, the first failing
page aborts the whole call with that page's error and zero output files
(third conjunct). -/
theorem C3_pdf_page_failures :
    (∀ (ps : List PdfPage),
       collectImages true ps 0 = .ok (goodImages ps, skipWarnings 0 ps)) ∧
    (∀ (pre : List PdfPage) (bad : PdfPage) (post : List PdfPage),
       pageGood bad = false →
       collectImages true (pre ++ bad :: post) 0 =
         .ok (goodImages pre ++ goodImages post,
              skipWarnings 0 pre ++
                pageErrAt (pre.length + 1) bad :: skipWarnings (pre.length + 1) post)) ∧
    (∀ (pre : List PdfPage) (bad : PdfPage) (post : List PdfPage),
       (∀ p ∈ pre, pageGood p = true) → pageGood bad = false →
       collectImages false (pre ++ bad :: post) 0 =
         .error (pageErrAt (pre.length + 1) bad) ∧
       pdfExtract false { pages := pre ++ bad :: post } =
         (.err (pageErrAt (pre.length + 1) bad), [])) := by
  refine ⟨fun ps => collectImages_skip_char ps 0, ?_, ?_⟩
  · intro pre bad post hbad
    rw [collectImages_skip_char (pre ++ bad :: post) 0]
    rw [goodImages_append, skipWarnings_append]
    simp only [goodImages, skipWarnings, hbad, Bool.false_eq_true, if_false,
      List.nil_append]
    rw [Nat.zero_add]
  · intro pre bad post hall hbad
    have herr := collectImages_noskip_err pre bad post 0 hall hbad
    rw [Nat.zero_add] at herr
    refine ⟨herr, ?_⟩
    simp only [pdfExtract, Bool.not_true, Bool.false_eq_true, if_false, herr]

theorem C3_pdf_page_failures_witness :
    collectImages false ([{ xobjects := [] }] ++ { pageOk := false } :: [{ xobjects := [] }]) 0 =
      .error (pageErrAt 2 { pageOk := false }) ∧
    pdfExtract false { pages := [{ xobjects := [] }] ++ { pageOk := false } :: [{ xobjects := [] }] } =
      (.err (pageErrAt 2 { pageOk := false }), []) :=
  C3_pdf_page_failures.2.2 [{ xobjects := [] }] { pageOk := false } [{ xobjects := [] }]
    (by decide) (by decide)

theorem ordEqThen (o : Ordering) : Ordering.eq.then o = o := rfl

theorem ordLtThen (o : Ordering) : Ordering.lt.then o = .lt := rfl

theorem ordGtThen (o : Ordering) : Ordering.gt.then o = .gt := rfl

theorem ordThenEq (o : Ordering) : o.then .eq = o := by cases o <;> rfl

theorem takeWhile_eq_self {p : α → Bool} :
    ∀ {l : List α}, (∀ c ∈ l, p c = true) → l.takeWhile p = l := by
  intro l
  induction l with
  | nil => intro _; rfl
  | cons c rest ih =>
    intro hall
    have hc : p c = true := hall c (by simp)
    simp [List.takeWhile_cons, hc, ih (fun x hx => hall x (by simp [hx]))]

theorem dropWhile_eq_nil {p : α → Bool} :
    ∀ {l : List α}, (∀ c ∈ l, p c = true) → l.dropWhile p = [] := by
  intro l
  induction l with
  | nil => intro _; rfl
  | cons c rest ih =>
    intro hall
    have hc : p c = true := hall c (by simp)
    simp [List.dropWhile_cons, hc, ih (fun x hx => hall x (by simp [hx]))]

/-- C8: on strings that agree on a non-digit prefix and continue with
decimal numerals, the natural comparator compares the numerals by value
(leading zeros ignored): `"a" ++ m` versus `"a" ++ n` compares as
`int(m)` versus `int(n)` (first conjunct); `page2.png` sorts before
`page10.png` and `page02.png` ties with `page2.png` under the natural
comparator, while the simple lexicographic path order puts `page02.png`
strictly first (remaining conjuncts). -/
theorem C8_natural_vs_simple :
    (∀ (m n : List Char), m ≠ [] → n ≠ [] →
       (∀ c ∈ m, c.isDigit = true) → (∀ c ∈ n, c.isDigit = true) →
       natCmpChars ('a' :: m) ('a' :: n) = compare (digitsVal m) (digitsVal n)) ∧
    natSegCmp "page2.png" "page10.png" = .lt ∧
    natSegCmp "page02.png" "page2.png" = .eq ∧
    pathLexCmp ["page02.png"] ["page2.png"] = .lt := by
  refine ⟨?_, ?_, ?_, ?_⟩
  · intro m n hm hn hdm hdn
    match m, n with
    | [], _ => exact absurd rfl hm
    | _ :: _, [] => exact absurd rfl hn
    | c :: ms, d :: ns =>
      have hc : c.isDigit = true := hdm c (by simp)
      have hd : d.isDigit = true := hdn d (by simp)
      have htm : ms.takeWhile Char.isDigit = ms :=
        takeWhile_eq_self (fun x hx => hdm x (by simp [hx]))
      have htn : ns.takeWhile Char.isDigit = ns :=
        takeWhile_eq_self (fun x hx => hdn x (by simp [hx]))
      have hwm : ms.dropWhile Char.isDigit = [] :=
        dropWhile_eq_nil (fun x hx => hdm x (by simp [hx]))
      have hwn : ns.dropWhile Char.isDigit = [] :=
        dropWhile_eq_nil (fun x hx => hdn x (by simp [hx]))
      have hnd : ('a'.isDigit && 'a'.isDigit) = false := by decide
      have hcc : charCmp 'a' 'a' = .eq := by decide
      simp only [natCmpChars, hnd, Bool.false_eq_true, if_false, hcc, ordEqThen,
        hc, hd, Bool.and_self, eq_self_iff_true, if_true, htm, htn, hwm, hwn,
        ordThenEq]
  · simp [natSegCmp, natCmpChars, charCmp, digitsVal]
    decide
  · simp [natSegCmp, natCmpChars, charCmp, digitsVal]
    decide
  · simp [pathLexCmp, lexCmp, segLexCmp, charCmp]
    decide

theorem C8_natural_vs_simple_witness :
    natCmpChars ('a' :: ['2']) ('a' :: ['1', '0']) = compare (digitsVal ['2']) (digitsVal ['1', '0']) :=
  C8_natural_vs_simple.1 ['2'] ['1', '0'] (by decide) (by decide) (by decide) (by decide)

/-- C4: a ZIP holding exactly the entries b.png, a.png, c10.png, c2.png
(in that container order), extracted with natural (non-simple)
ordering, stages the four pages in container order, sorts them into the
order a.png, b.png, c2.png, c10.png, and returns exactly the four
output paths 1.png, 2.png, 3.png, 4.png. -/
theorem C4_round_trip (img : List String → Bool → Bool) :
    (stageEntries ⟨false, false, false, false⟩ img
        [{ name := ["b.png"] }, { name := ["a.png"] },
         { name := ["c10.png"] }, { name := ["c2.png"] }] 0).1 =
      .ok [{ path_in_zip := ["b.png"], extracted_path := "___tmp_pic_0",
             extension := some "png" },
           { path_in_zip := ["a.png"], extracted_path := "___tmp_pic_1",
             extension := some "png" },
           { path_in_zip := ["c10.png"], extracted_path := "___tmp_pic_2",
             extension := some "png" },
           { path_in_zip := ["c2.png"], extracted_path := "___tmp_pic_3",
             extension := some "png" }] ∧
    sortPages ⟨false, false, false, false⟩
        [{ path_in_zip := ["b.png"], extracted_path := "___tmp_pic_0",
           extension := some "png" },
         { path_in_zip := ["a.png"], extracted_path := "___tmp_pic_1",
           extension := some "png" },
         { path_in_zip := ["c10.png"], extracted_path := "___tmp_pic_2",
           extension := some "png" },
         { path_in_zip := ["c2.png"], extracted_path := "___tmp_pic_3",
           extension := some "png" }] =
      [{ path_in_zip := ["a.png"], extracted_path := "___tmp_pic_1",
         extension := some "png" },
       { path_in_zip := ["b.png"], extracted_path := "___tmp_pic_0",
         extension := some "png" },
       { path_in_zip := ["c2.png"], extracted_path := "___tmp_pic_3",
         extension := some "png" },
       { path_in_zip := ["c10.png"], extracted_path := "___tmp_pic_2",
         extension := some "png" }] ∧
    (zipExtract ⟨false, false, false, false⟩ img
        { entries := [{ name := ["b.png"] }, { name := ["a.png"] },
                      { name := ["c10.png"] }, { name := ["c2.png"] }] }).1 =
      .ok ["1.png", "2.png", "3.png", "4.png"] := by
  refine ⟨?_, ?_, ?_⟩
  · simp only [stageEntries, Bool.false_and]
    decide
  · simp [sortPages, List.mergeSort, List.splitInTwo, List.splitAt, List.splitAt.go,
      List.merge, natural_paths_cmp, lexCmp, natSegCmp, natCmpChars, charCmp, digitsVal,
      Nat.compare_def_lt, Ordering.isLE, ordEqThen, ordLtThen, ordGtThen]
  · simp [zipExtract, stageEntries, sortPages, renamePages, List.mergeSort,
      List.splitInTwo, List.splitAt, List.splitAt.go, List.merge,
      natural_paths_cmp, lexCmp, natSegCmp, natCmpChars, charCmp, digitsVal,
      Nat.compare_def_lt, Ordering.isLE, ordEqThen, ordLtThen, ordGtThen,
      tmpName, pathExtension, rustFileExtension,
      afterLastDot, targetName, zeroPad, Nat.repr, Nat.toDigits, Nat.toDigitsCore,
      Nat.digitChar, List.asString, Bool.false_and]
    decide

/-- C6: with `extract_images_only` enabled, a file entry whose name
fails the image predicate is skipped without error, leaving the loop
state untouched (first conjunct); a directory entry is likewise always
skipped (second conjunct); a ZIP with one txt entry and two png entries
(under any predicate classifying them accordingly) produces exactly the
two output files 1.png and 2.png (third conjunct). -/
theorem C6_images_only_filter :
    (∀ (dec : Decode) (img : List String → Bool → Bool) (e : ZipEntry)
       (rest : List ZipEntry) (k : Nat),
       e.byIndexOk = true → e.isFile = true → dec.extract_images_only = true →
       img e.name dec.accept_extended_image_formats = false →
       stageEntries dec img (e :: rest) k = stageEntries dec img rest k) ∧
    (∀ (dec : Decode) (img : List String → Bool → Bool) (e : ZipEntry)
       (rest : List ZipEntry) (k : Nat),
       e.byIndexOk = true → e.isFile = false →
       stageEntries dec img (e :: rest) k = stageEntries dec img rest k) ∧
    (∀ (img : List String → Bool → Bool),
       img ["x.txt"] false = false → img ["a.png"] false = true →
       img ["b.png"] false = true →
       (zipExtract ⟨true, false, false, false⟩ img
          { entries := [{ name := ["x.txt"] }, { name := ["a.png"] },
                        { name := ["b.png"] }] }).1 =
         .ok ["1.png", "2.png"]) := by
  refine ⟨?_, ?_, ?_⟩
  · intro dec img e rest k h1 h2 h3 h4
    exact stageEntries_skip_filtered dec img e rest k h1 h2 h3 h4
  · intro dec img e rest k h1 h2
    exact stageEntries_skip_dir dec img e rest k h1 h2
  · intro img h1 h2 h3
    simp [zipExtract, stageEntries, sortPages, renamePages, List.mergeSort,
      List.splitInTwo, List.splitAt, List.splitAt.go, List.merge,
      natural_paths_cmp, lexCmp, natSegCmp, natCmpChars, charCmp, digitsVal,
      Nat.compare_def_lt, Ordering.isLE, ordEqThen, ordLtThen, ordGtThen,
      tmpName, pathExtension, rustFileExtension,
      afterLastDot, targetName, zeroPad, Nat.repr, Nat.toDigits, Nat.toDigitsCore,
      Nat.digitChar, List.asString, h1, h2, h3]
    decide

theorem C6_images_only_filter_witness :
    (zipExtract ⟨true, false, false, false⟩
        (fun n _ => n = ["a.png"] ∨ n = ["b.png"])
        { entries := [{ name := ["x.txt"] }, { name := ["a.png"] },
                      { name := ["b.png"] }] }).1 =
      .ok ["1.png", "2.png"] :=
  C6_images_only_filter.2.2 (fun n _ => n = ["a.png"] ∨ n = ["b.png"])
    (by decide) (by decide) (by decide)

theorem sortPages_length (dec : Decode) (l : List ExtractedFile) :
    (sortPages dec l).length = l.length := by
  rw [sortPages]
  split <;> rw [List.length_mergeSort]

theorem writeImages_ok_eq (w : Nat) :
    ∀ (ims : List XObj) (i : Nat) (out tr : List String),
      (∀ x ∈ ims, ∃ im : PdfImage, x = .image im) →
      writeImages w ims i = (.ok out, tr) → out = jpgNames w i ims.length := by
  intro ims
  induction ims with
  | nil =>
    intro i out tr _ h
    simp only [writeImages] at h
    cases h
    rfl
  | cons x rest ih =>
    intro i out tr hall h
    obtain ⟨im, hx⟩ := hall x (by simp)
    subst hx
    simp only [writeImages] at h
    by_cases hj : im.jpegOk = true
    · rw [hj] at h
      simp only [Bool.not_true, Bool.false_eq_true, if_false] at h
      by_cases hw : im.writeOk = true
      · rw [hw] at h
        simp only [Bool.not_true, Bool.false_eq_true, if_false] at h
        cases e : writeImages w rest (i + 1) with
        | mk r tr2 =>
          rw [e] at h
          cases r with
          | ok out2 =>
            simp only at h
            cases h
            rw [ih (i + 1) out2 tr2 (fun y hy => hall y (by simp [hy])) e]
            simp [jpgNames]
          | err er => simp only at h; cases h
          | panicked => simp only at h; cases h
      · simp only [Bool.not_eq_true] at hw
        rw [hw] at h
        simp only [Bool.not_false, eq_self_iff_true, if_true] at h
        cases h
    · simp only [Bool.not_eq_true] at hj
      rw [hj] at h
      simp only [Bool.not_false, eq_self_iff_true, if_true] at h
      cases h

/-- C7: the staged-page sort in natural (non-simple) mode is stable:
pages whose original container paths compare equal keep their
container-enumeration order (first conjunct); a sequence already sorted
by the natural order is returned unchanged (second conjunct); and
sorting twice equals sorting once (third conjunct). -/
theorem C7_sort_stable (dec : Decode) (pages : List ExtractedFile)
    (hmode : dec.simple_sorting = false) :
    (∀ (p q : ExtractedFile), List.Sublist [p, q] pages →
       natural_paths_cmp p.path_in_zip q.path_in_zip = .eq →
       List.Sublist [p, q] (sortPages dec pages)) ∧
    (pages.Pairwise
       (fun p q => (natural_paths_cmp p.path_in_zip q.path_in_zip).isLE = true) →
       sortPages dec pages = pages) ∧
    sortPages dec (sortPages dec pages) = sortPages dec pages := by
  have hsort : ∀ (l : List ExtractedFile), sortPages dec l =
      l.mergeSort (fun a b => (natural_paths_cmp a.path_in_zip b.path_in_zip).isLE) := by
    intro l
    simp [sortPages, hmode]
  have htrans : ∀ (a b c : ExtractedFile),
      (natural_paths_cmp a.path_in_zip b.path_in_zip).isLE = true →
      (natural_paths_cmp b.path_in_zip c.path_in_zip).isLE = true →
      (natural_paths_cmp a.path_in_zip c.path_in_zip).isLE = true :=
    fun _ _ _ h1 h2 => cmpLE_trans natural_paths_cmp h1 h2
  have htotal : ∀ (a b : ExtractedFile),
      ((natural_paths_cmp a.path_in_zip b.path_in_zip).isLE ||
       (natural_paths_cmp b.path_in_zip a.path_in_zip).isLE) = true :=
    fun a b => cmpLE_total natural_paths_cmp _ _
  refine ⟨?_, ?_, ?_⟩
  · intro p q hsub heq
    rw [hsort]
    refine List.pair_sublist_mergeSort htrans htotal ?_ hsub
    rw [heq]
    rfl
  · intro hp
    rw [hsort]
    exact List.mergeSort_of_sorted hp
  · rw [hsort, hsort]
    exact List.mergeSort_of_sorted (List.sorted_mergeSort htrans htotal pages)

theorem C7_sort_stable_witness :
    List.Sublist
      [({ path_in_zip := ["a02.png"], extracted_path := "___tmp_pic_0",
          extension := some "png" } : ExtractedFile),
       { path_in_zip := ["a2.png"], extracted_path := "___tmp_pic_1",
         extension := some "png" }]
      (sortPages ⟨false, false, false, false⟩
        [{ path_in_zip := ["a02.png"], extracted_path := "___tmp_pic_0",
           extension := some "png" },
         { path_in_zip := ["a2.png"], extracted_path := "___tmp_pic_1",
           extension := some "png" }]) ∧
    sortPages ⟨false, false, false, false⟩
      (sortPages ⟨false, false, false, false⟩
        [{ path_in_zip := ["a02.png"], extracted_path := "___tmp_pic_0",
           extension := some "png" },
         { path_in_zip := ["a2.png"], extracted_path := "___tmp_pic_1",
           extension := some "png" }]) =
    sortPages ⟨false, false, false, false⟩
      [{ path_in_zip := ["a02.png"], extracted_path := "___tmp_pic_0",
         extension := some "png" },
       { path_in_zip := ["a2.png"], extracted_path := "___tmp_pic_1",
         extension := some "png" }] :=
  ⟨(C7_sort_stable ⟨false, false, false, false⟩ _ rfl).1 _ _ (List.Sublist.refl _)
      (by simp [natural_paths_cmp, lexCmp, natSegCmp, natCmpChars, charCmp, digitsVal,
        Nat.compare_def_lt, ordEqThen, ordThenEq]),
   (C7_sort_stable ⟨false, false, false, false⟩ _ rfl).2.2⟩

/-- C5: every final output filename carries the 0-based page index `j`
as the numeral `j + 1` zero-padded to exactly `len(str(N))` base-10
digits, `N` the number of produced pages.  Archive case: the name is
that numeral plus a dot and the recorded extension of the `j`-th sorted
staged page when one exists, and nothing otherwise.  Document case: the
name is always that numeral plus `.jpg`. -/
theorem C5_zero_padding :
    (∀ (dec : Decode) (img : List String → Bool → Bool) (z : ZipInput)
       (pages : List ExtractedFile) (out tr : List String),
       (stageEntries dec img z.entries 0).1 = .ok pages →
       zipExtract dec img z = (.ok out, tr) →
       out.length = pages.length ∧
       ∀ (j : Nat) (h1 : j < out.length) (h2 : j < (sortPages dec pages).length),
         out.get ⟨j, h1⟩ =
           targetName (Nat.repr out.length).length j
             ((sortPages dec pages).get ⟨j, h2⟩).extension ∧
         (zeroPad (Nat.repr out.length).length (j + 1)).length =
           (Nat.repr out.length).length) ∧
    (∀ (skip : Bool) (pdfin : PdfInput) (out tr : List String),
       pdfExtract skip pdfin = (.ok out, tr) →
       ∀ (j : Nat) (h1 : j < out.length),
         out.get ⟨j, h1⟩ = zeroPad (Nat.repr out.length).length (j + 1) ++ ".jpg" ∧
         (zeroPad (Nat.repr out.length).length (j + 1)).length =
           (Nat.repr out.length).length) := by
  constructor
  · intro dec img z pages out tr hst hzip
    by_cases ho : z.openOk = true
    · by_cases ha : z.archiveOk = true
      · simp only [zipExtract, ho, ha, Bool.not_true, Bool.false_eq_true, if_false] at hzip
        cases est : stageEntries dec img z.entries 0 with
        | mk r tr1 =>
          rw [est] at hzip
          rw [est] at hst
          cases r with
          | error er => cases hst
          | ok pages2 =>
            cases hst
            simp only at hzip
            cases ern : renamePages (Nat.repr (sortPages dec pages).length).length
                (sortPages dec pages) 0 with
            | mk r2 tr2 =>
              rw [ern] at hzip
              cases r2 with
              | error er => simp only at hzip; cases hzip
              | ok out2 =>
                obtain rfl : out2 = out := Except.ok.inj (congrArg Prod.fst hzip)
                obtain ⟨hout, -⟩ := renamePages_ok_eq
                  (Nat.repr (sortPages dec pages).length).length
                  (sortPages dec pages) 0 out2 tr2 ern
                subst hout
                have hlen : (finalNames (Nat.repr (sortPages dec pages).length).length 0
                    (sortPages dec pages)).length = pages.length := by
                  rw [finalNames_length, sortPages_length]
                refine ⟨hlen, ?_⟩
                intro j h1 h2
                have hN : (finalNames (Nat.repr (sortPages dec pages).length).length 0
                    (sortPages dec pages)).length = (sortPages dec pages).length := by
                  rw [finalNames_length]
                constructor
                · rw [finalNames_get _ (sortPages dec pages) 0 j h1 h2]
                  rw [hN]
                  rw [Nat.zero_add]
                · rw [hN]
                  refine zeroPad_length_exact (repr_length_mono ?_)
                  rw [hN] at h1
                  omega
      · simp only [Bool.not_eq_true] at ha
        simp only [zipExtract, ho, ha, Bool.not_true, Bool.not_false, Bool.false_eq_true,
          if_false, eq_self_iff_true, if_true] at hzip
        cases hzip
    · simp only [Bool.not_eq_true] at ho
      simp only [zipExtract, ho, Bool.not_false, eq_self_iff_true, if_true] at hzip
      cases hzip
  · intro skip pdfin out tr hpdf
    by_cases ho : pdfin.openOk = true
    · simp only [pdfExtract, ho, Bool.not_true, Bool.false_eq_true, if_false] at hpdf
      cases ec : collectImages skip pdfin.pages 0 with
      | error er => rw [ec] at hpdf; cases hpdf
      | ok pair =>
        rw [ec] at hpdf
        obtain ⟨images, ws⟩ := pair
        simp only at hpdf
        have hall := collectImages_all_image skip pdfin.pages 0 images ws ec
        have hout := writeImages_ok_eq (Nat.repr images.length).length images 0 out tr
          hall hpdf
        subst hout
        have hlen : (jpgNames (Nat.repr images.length).length 0 images.length).length =
            images.length := jpgNames_length _ _ _
        intro j h1
        constructor
        · rw [jpgNames_get _ images.length 0 j h1]
          rw [hlen]
          rw [Nat.zero_add]
        · rw [hlen]
          refine zeroPad_length_exact (repr_length_mono ?_)
          rw [hlen] at h1
          omega
    · simp only [Bool.not_eq_true] at ho
      simp only [pdfExtract, ho, Bool.not_false, eq_self_iff_true, if_true] at hpdf
      cases hpdf

theorem C5_zero_padding_witness :
    (["1.png", "2.png"] : List String).length =
      [({ path_in_zip := ["b.png"], extracted_path := "___tmp_pic_0",
          extension := some "png" } : ExtractedFile),
       { path_in_zip := ["a.png"], extracted_path := "___tmp_pic_1",
         extension := some "png" }].length :=
  (C5_zero_padding.1 ⟨false, false, false, false⟩ (fun _ _ => true)
    { entries := [{ name := ["b.png"] }, { name := ["a.png"] }] }
    [{ path_in_zip := ["b.png"], extracted_path := "___tmp_pic_0",
       extension := some "png" },
     { path_in_zip := ["a.png"], extracted_path := "___tmp_pic_1",
       extension := some "png" }]
    ["1.png", "2.png"]
    ["___tmp_pic_0", "___tmp_pic_1", "1.png", "2.png"]
    (by decide)
    (by
      simp [zipExtract, stageEntries, sortPages, renamePages, List.mergeSort,
        List.splitInTwo, List.splitAt, List.splitAt.go, List.merge,
        natural_paths_cmp, lexCmp, natSegCmp, natCmpChars, charCmp, digitsVal,
        Nat.compare_def_lt, Ordering.isLE, ordEqThen, ordLtThen, ordGtThen,
        tmpName, pathExtension, rustFileExtension,
        afterLastDot, targetName, zeroPad, Nat.repr, Nat.toDigits, Nat.toDigitsCore,
        Nat.digitChar, List.asString, Bool.false_and]
      decide)).1

end ComicEnc
